import Mathlib

/-!
A verification development for the documentation-rewriting core of the
cairo-doc tool (src/cairo_doc/rewriter.py).  The Python module walks the
top-level code-element list of a parsed Cairo module, collects the comment
lines attached above each function-shaped declaration, regenerates a
canonical documentation block from the declaration's signature, removes the
stale comment lines and inserts the regenerated block.

The shallow embedding below mirrors the source line by line:

* an `Entry` is a `CommentedCodeElement`: an optional comment string paired
  with a code element (`CodeElementEmptyLine`, `CodeElementFunction`, or any
  other element, which the rewriter never inspects);
* Python's negative list indexing (`lst[i-1]` with `i = 0` wraps to the end
  of the list) is modelled by `pyGet`; an out-of-range access (IndexError)
  and a missing dictionary key (KeyError) are modelled by an `ok := false`
  flag carried next to the (partially mutated) list, matching the fact that
  a raised exception leaves the in-place mutation done so far;
* `list.remove(x)` removes the first structurally equal element (the AST
  nodes are Python dataclasses, whose `==` is structural); in the rewriter
  the removed value is always a comment-carrying empty line, so equality
  against such a value is `isTarget`;
* the `while` loops of `remove_documentation` are modelled with explicit
  fuel; fuel exhaustion returns the same `ok := false` flag.  The driver
  `pipeline` supplies `length + 2` outer fuel and `length` inner fuel, which
  match the loop counts of the source (each outer iteration advances
  `i - total_elements` by one; each inner iteration removes one element).
-/

/-- `TypedIdentifier`: a named, typed parameter or return member.  `typ`
stores the result of `typ.format()`, which the rewriter only ever
interpolates into a string. -/
structure TypedIdentifier where
  name : String
  typ : String
  deriving DecidableEq

/-- The fields of `CodeElementFunction` read by the rewriter: `name`,
`element_type` (one of "func", "struct", "namespace"), the decorator name
list, `arguments.identifiers` and `returns.members`. -/
structure FuncSig where
  name : String
  elementType : String
  decorators : List String
  arguments : List TypedIdentifier
  returns : Option (List TypedIdentifier)
  deriving DecidableEq

/-- A code element: `CodeElementEmptyLine`, `CodeElementFunction` (with its
signature fields and its nested code block of commented elements), or any
other code element (opaque to the rewriter, tagged by a number). -/
inductive CodeElem : Type where
  | emptyLine : CodeElem
  | func : FuncSig → List (Option String × CodeElem) → CodeElem
  | other : Nat → CodeElem

/-- `CommentedCodeElement`: optional comment plus wrapped code element. -/
abbrev Entry := Option String × CodeElem

/-- Python `substring in s` on lists of characters: prefix test. -/
def isPrefixOfB : List Char → List Char → Bool
  | [], _ => true
  | _ :: _, [] => false
  | a :: as, b :: bs => a == b && isPrefixOfB as bs

/-- Python `substring in s` on lists of characters: infix test. -/
def infixAux (pat : List Char) : List Char → Bool
  | [] => isPrefixOfB pat []
  | b :: bs => isPrefixOfB pat (b :: bs) || infixAux pat bs

/-- Python's `substring in s` for strings. -/
def substrB (pat s : String) : Bool := infixAux pat.data s.data

/-- `first_substring(strings, substring)` from rewriter.py lines 187-191:
the first string of the list that contains the substring, else None. -/
def firstSubstring (strings : List String) (substring : String) : Option String :=
  strings.find? (fun s => substrB substring s)

/-- The `f"@param {arg.name} "` line of rewriter.py line 155. -/
def paramLine (arg : TypedIdentifier) : String := "@param " ++ arg.name ++ " "

/-- The `f"@returns {ret.name} : {ret.typ.format()} "` line of rewriter.py
line 166. -/
def returnLine (ret : TypedIdentifier) : String :=
  "@returns " ++ ret.name ++ " : " ++ ret.typ ++ " "

/-- `create_function_documentation` from rewriter.py lines 140-184. -/
def createFunctionDocumentation (currentFunctionDoc : List String) (f : FuncSig) :
    List String :=
  let tagNotice : List String :=
    match firstSubstring currentFunctionDoc "@notice " with
    | some existingNotice => [existingNotice]
    | none => ["@notice"]
  let tagDev : List String := []
  let tagParams : List String :=
    f.arguments.map fun arg =>
      match firstSubstring currentFunctionDoc (paramLine arg) with
      | some existingLine => existingLine
      | none => paramLine arg
  let tagReturns : List String :=
    match f.returns with
    | none => []
    | some members =>
      members.map fun ret =>
        match firstSubstring currentFunctionDoc (returnLine ret) with
        | some existingLine => existingLine
        | none => returnLine ret
  let tagNotice2 : List String :=
    match firstSubstring currentFunctionDoc "@dev" with
    | some existingDev => tagNotice ++ [existingDev]
    | none => tagNotice
  match firstSubstring currentFunctionDoc "@inheritdoc" with
  | some existingInheritdoc => [existingInheritdoc]
  | none => tagNotice2 ++ tagDev ++ tagParams ++ tagReturns

/-- The eligibility test of rewriter.py lines 52-53 (repeated at 89-90 and
115-116): `any(decorator.name not in ["storage_var"] for decorator in
func.decorators) and func.element_type not in ['struct', 'namespace']`. -/
def needInstrumentation (f : FuncSig) : Bool :=
  (f.decorators.any fun d => d != "storage_var") &&
    f.elementType != "struct" && f.elementType != "namespace"

/-- The upward comment-collecting loop of `get_documentation` (rewriter.py
lines 59-65): starting with `k = i`, while `k > 0` and the element at
`k - 1` is an empty line carrying a comment, append the comment and
decrement `k`. -/
def collectDocAux (elements : List Entry) : Nat → List String
  | 0 => []
  | k + 1 =>
    match elements[k]? with
    | some (some comment, CodeElem.emptyLine) => comment :: collectDocAux elements k
    | _ => []

/-- The per-invocation documentation map (`self.documentation`), keyed by
declaration name. -/
abbrev DocMap := List (String × List String)

/-- Python dictionary assignment `d[k] = v`: overwrite the existing binding
or append a new one. -/
def dictSet (d : DocMap) (k : String) (v : List String) : DocMap :=
  if d.any (fun kv => kv.fst == k) then
    d.map fun kv => if kv.fst == k then (k, v) else kv
  else d ++ [(k, v)]

/-- Python dictionary lookup `d[k]`, `none` modelling a KeyError. -/
def dictGet (d : DocMap) (k : String) : Option (List String) :=
  (d.find? fun kv => kv.fst == k).map Prod.snd

/-- `get_documentation` (rewriter.py lines 40-71): iterate `i` from
`total_elements - 1` down to `0`; for every eligible function store the
regenerated documentation under its name.  `getDocAux elements (k + 1) d`
processes index `k` and recurses. -/
def getDocAux (elements : List Entry) : Nat → DocMap → DocMap
  | 0, d => d
  | k + 1, d =>
    match elements[k]? with
    | some (_, CodeElem.func sig _) =>
      if needInstrumentation sig then
        getDocAux elements k
          (dictSet d sig.name
            (createFunctionDocumentation (collectDocAux elements k) sig))
      else getDocAux elements k d
    | _ => getDocAux elements k d

def getDocumentation (elements : List Entry) : DocMap :=
  getDocAux elements elements.length []

/-- Python list access `lst[i]` with negative-index wrap-around; `none`
models an IndexError. -/
def pyGet (l : List Entry) (i : Int) : Option Entry :=
  if 0 ≤ i then l[i.toNat]?
  else if 0 ≤ (l.length : Int) + i then l[((l.length : Int) + i).toNat]? else none

/-- `x == y` for the case arising in `list.remove`: the removed value is
always a comment-carrying `CodeElementEmptyLine`, and dataclass equality of
a `CommentedCodeElement` against such a value holds exactly for an empty
line carrying the same comment. -/
def isTarget (s : String) : Entry → Bool
  | (some c, CodeElem.emptyLine) => c == s
  | _ => false

/-- `top_level_elements.remove(x)` (rewriter.py line 99): Python removes the
first element equal to `x`. -/
def removeFirst (s : String) : List Entry → List Entry
  | [] => []
  | e :: es => if isTarget s e then es else e :: removeFirst s es

/-- The inner `while` of `remove_documentation` (rewriter.py lines 95-101):
while the element at `i - 1` (Python indexing, so `-1` wraps to the end of
the list) is an empty line, stop if its comment is None, else remove it and
decrement `i`.  Returns the mutated list, the final `i`, and an ok flag
(`false` models an IndexError or fuel exhaustion). -/
def innerRemove : Nat → List Entry → Int → List Entry × Int × Bool
  | 0, l, i => (l, i, false)
  | fuel + 1, l, i =>
    match pyGet l (i - 1) with
    | none => (l, i, false)
    | some (some comment, CodeElem.emptyLine) =>
      innerRemove fuel (removeFirst comment l) (i - 1)
    | some (none, CodeElem.emptyLine) => (l, i, true)
    | some _ => (l, i, true)

/-- The outer loop of `remove_documentation` (rewriter.py lines 73-101):
`i` starts at `-1`; each iteration increments `i`, stops when
`i == total_elements`, and for an eligible function runs the inner removal
loop. -/
def removeOuter : Nat → List Entry → Int → List Entry × Bool
  | 0, l, _ => (l, false)
  | fuel + 1, l, i =>
    if i + 1 = (l.length : Int) then (l, true)
    else
      match pyGet l (i + 1) with
      | none => (l, false)
      | some (_, CodeElem.func sig _) =>
        if needInstrumentation sig then
          match innerRemove l.length l (i + 1) with
          | (l2, i2, true) => removeOuter fuel l2 i2
          | (l2, _, false) => (l2, false)
        else removeOuter fuel l (i + 1)
      | some _ => removeOuter fuel l (i + 1)

def removeDocumentation (elements : List Entry) : List Entry × Bool :=
  removeOuter (elements.length + 2) elements (-1)

/-- The comment-only entries inserted by `add_documentation` (rewriter.py
lines 130-133): `CommentedCodeElement(comment=line,
code_elm=CodeElementEmptyLine())` for each line. -/
def commentEntries (lines : List String) : List Entry :=
  lines.map fun line => (some line, CodeElem.emptyLine)

/-- `add_documentation` (rewriter.py lines 103-133): iterate `i` from
`total_elements - 1` down to `0`; for every eligible function look its name
up in the documentation map (`none` models the KeyError) and insert one
comment-only empty-line entry per line at index `i` (inserting the reversed
block line by line at the same index, which lands the block in order). -/
def addDocAux (dict : DocMap) : Nat → List Entry → List Entry × Bool
  | 0, l => (l, true)
  | k + 1, l =>
    match l[k]? with
    | none => (l, false)
    | some (_, CodeElem.func sig _) =>
      if needInstrumentation sig then
        match dictGet dict sig.name with
        | none => (l, false)
        | some doc => addDocAux dict k (l.take k ++ commentEntries doc ++ l.drop k)
      else addDocAux dict k l
    | some _ => addDocAux dict k l

def addDocumentation (dict : DocMap) (elements : List Entry) : List Entry × Bool :=
  addDocAux dict elements.length elements

/-- `visit_CairoModule` (rewriter.py lines 32-38): the three passes over the
module's top-level code-element list, in order.  A first-pass or second-pass
failure (IndexError) aborts before the next pass, returning the list as
mutated so far.  Modelled from the spec for the part outside src/: the
external base `Visitor.visit_CairoModule` the override tail-calls only
rebuilds the tree, leaving every nested code block unchanged; the three
passes are invoked nowhere else, so the pipeline acts on the top-level list
only. -/
def pipeline (elements : List Entry) : List Entry × Bool :=
  let dict := getDocumentation elements
  match removeDocumentation elements with
  | (l1, true) => addDocumentation dict l1
  | (l1, false) => (l1, false)

/-! ### The canonical slots of a regenerated documentation block -/

/-- The notice line of the regenerated block: the first prior line
containing the notice pattern, else the placeholder. -/
def noticeSlot (prior : List String) : String :=
  (firstSubstring prior "@notice ").getD "@notice"

/-- The optional dev line of the regenerated block. -/
def devSlot (prior : List String) : Option String := firstSubstring prior "@dev"

/-- The line emitted for parameter `p`. -/
def paramSlot (prior : List String) (p : TypedIdentifier) : String :=
  (firstSubstring prior (paramLine p)).getD (paramLine p)

/-- The line emitted for return member `r`. -/
def returnSlot (prior : List String) (r : TypedIdentifier) : String :=
  (firstSubstring prior (returnLine r)).getD (returnLine r)

/-- The return members iterated by the schema builder (empty when the
declaration has no returns clause). -/
def returnMembers (f : FuncSig) : List TypedIdentifier := f.returns.getD []

/-- An entry that is a comment-carrying empty line (the only kind of entry
the rewriter ever removes or inserts). -/
def isCommentLine : Entry → Bool
  | (some _, CodeElem.emptyLine) => true
  | _ => false

/-- The block produced for a declaration with no `@inheritdoc` line. -/
def regenerated (prior : List String) (f : FuncSig) : List String :=
  noticeSlot prior ::
    ((devSlot prior).toList ++ f.arguments.map (paramSlot prior) ++
      (returnMembers f).map (returnSlot prior))

/-! ### Concrete declarations used by the claims -/

/-- The `transfer(to, amount) -> (success : felt)` example of the spec. -/
def transferSig : FuncSig :=
  { name := "transfer", elementType := "func", decorators := ["external"],
    arguments := [⟨"to", "felt"⟩, ⟨"amount", "Uint256"⟩],
    returns := some [⟨"success", "felt"⟩] }

/-- A function-shaped declaration with an empty decorator set. -/
def undecoratedSig : FuncSig :=
  { name := "u", elementType := "func", decorators := [], arguments := [],
    returns := none }

/-- Another undecorated function. -/
def initSig : FuncSig :=
  { name := "init", elementType := "func", decorators := [], arguments := [],
    returns := none }

/-- A declaration carrying only the `event` decorator. -/
def eventSig : FuncSig :=
  { name := "ev", elementType := "func", decorators := ["event"], arguments := [],
    returns := none }

/-- A declaration carrying only the `storage_var` decorator. -/
def storageSig : FuncSig :=
  { name := "balance", elementType := "func", decorators := ["storage_var"],
    arguments := [], returns := none }

/-- An eligible function with no parameters and no returns clause. -/
def simpleSig : FuncSig :=
  { name := "f", elementType := "func", decorators := ["external"], arguments := [],
    returns := none }

/-- An eligible function with one parameter `a`. -/
def paramASig : FuncSig :=
  { name := "fa", elementType := "func", decorators := ["external"],
    arguments := [⟨"a", "felt"⟩], returns := none }

/-- An eligible function with one parameter, used by preservation witnesses. -/
def wSig : FuncSig :=
  { name := "w", elementType := "func", decorators := ["external"],
    arguments := [⟨"a", "felt"⟩], returns := none }

/-- An eligible function nested inside a namespace. -/
def gSig : FuncSig :=
  { name := "g", elementType := "func", decorators := ["external"], arguments := [],
    returns := none }

/-- The inner block of the nested namespace. -/
def innerBlock : List Entry := [(none, CodeElem.func gSig [])]

/-- A namespace declaration (`element_type = "namespace"`). -/
def namespaceSig : FuncSig :=
  { name := "ns", elementType := "namespace", decorators := [], arguments := [],
    returns := none }

/-- An entry wrapping a real (function) code element. -/
def isFuncEntry : Entry → Bool
  | (_, CodeElem.func _ _) => true
  | _ => false

/-! ### Basic facts about the substring matcher and `first_substring` -/

theorem isPrefixOfB_refl : ∀ l : List Char, isPrefixOfB l l = true
  | [] => rfl
  | a :: as => by simp [isPrefixOfB, isPrefixOfB_refl as]

/-- Every string contains itself, so a placeholder line always matches its
own tag pattern. -/
theorem substrB_self (s : String) : substrB s s = true := by
  unfold substrB
  cases h : s.data with
  | nil => simp [infixAux, isPrefixOfB]
  | cons c cs => simp [infixAux, isPrefixOfB_refl]

theorem firstSubstring_mem {l : List String} {pat x : String}
    (h : firstSubstring l pat = some x) : x ∈ l :=
  List.mem_of_find?_eq_some h

theorem firstSubstring_matches {l : List String} {pat x : String}
    (h : firstSubstring l pat = some x) : substrB pat x = true :=
  List.find?_some h

theorem firstSubstring_eq_none {l : List String} {pat : String} :
    firstSubstring l pat = none ↔ ∀ x ∈ l, substrB pat x = false := by
  unfold firstSubstring
  rw [List.find?_eq_none]
  simp

/-- `find?` returns `v` whenever a witness exists and every matching element
equals `v`. -/
theorem find?_eq_some_unique {α : Type} {p : α → Bool} {v : α} :
    ∀ {l : List α}, (∃ x ∈ l, p x = true) → (∀ x ∈ l, p x = true → x = v) →
      l.find? p = some v
  | [], ⟨_, hx, _⟩, _ => absurd hx (List.not_mem_nil _)
  | a :: l, ⟨x, hx, hpx⟩, huniq => by
    by_cases ha : p a = true
    · rw [List.find?_cons_of_pos _ ha]
      exact congrArg some (huniq a (List.mem_cons_self a l) ha)
    · rw [List.find?_cons_of_neg _ (by simpa using ha)]
      rcases List.mem_cons.mp hx with rfl | hx'
      · exact absurd hpx ha
      · exact find?_eq_some_unique ⟨x, hx', hpx⟩
          (fun y hy hpy => huniq y (List.mem_cons_of_mem _ hy) hpy)


/-- Shape of the regenerated block in the absence of an `@inheritdoc` line:
notice, optional dev, one line per parameter, one line per return member. -/
theorem createDoc_eq_slots (prior : List String) (f : FuncSig)
    (h : firstSubstring prior "@inheritdoc" = none) :
    createFunctionDocumentation prior f =
      noticeSlot prior ::
        ((devSlot prior).toList ++ f.arguments.map (paramSlot prior) ++
          (returnMembers f).map (returnSlot prior)) := by
  have hparam : (fun arg =>
      match firstSubstring prior (paramLine arg) with
      | some existingLine => existingLine
      | none => paramLine arg) = paramSlot prior := by
    funext arg
    unfold paramSlot
    cases firstSubstring prior (paramLine arg) <;> rfl
  have hret : (fun ret =>
      match firstSubstring prior (returnLine ret) with
      | some existingLine => existingLine
      | none => returnLine ret) = returnSlot prior := by
    funext ret
    unfold returnSlot
    cases firstSubstring prior (returnLine ret) <;> rfl
  unfold createFunctionDocumentation noticeSlot devSlot returnMembers
  rw [h]
  cases hN : firstSubstring prior "@notice " <;>
    cases hD : firstSubstring prior "@dev" <;>
      cases hR : f.returns <;> simp [Option.getD, hparam, hret]

/-- With an `@inheritdoc` line present, the block is that single line. -/
theorem createDoc_inheritdoc (prior : List String) (f : FuncSig) {L : String}
    (h : firstSubstring prior "@inheritdoc" = some L) :
    createFunctionDocumentation prior f = [L] := by
  unfold createFunctionDocumentation
  rw [h]

/-! ### Frame lemmas: the passes only remove or insert comment-only
empty-line entries -/


theorem isTarget_shape {s : String} {e : Entry} (h : isTarget s e = true) :
    e = (some s, CodeElem.emptyLine) := by
  rcases e with ⟨c, elem⟩
  cases elem <;> cases c <;> simp [isTarget] at h ⊢
  exact h

theorem filter_removeFirst (p : Entry → Bool)
    (hp : ∀ t : String, p (some t, CodeElem.emptyLine) = false) (s : String) :
    ∀ l : List Entry, (removeFirst s l).filter p = l.filter p
  | [] => rfl
  | e :: es => by
    by_cases he : isTarget s e = true
    · have hshape := isTarget_shape he
      rw [removeFirst, if_pos he, hshape, List.filter_cons_of_neg (by simp [hp])]
    · rw [removeFirst, if_neg he, List.filter_cons, List.filter_cons,
        filter_removeFirst p hp s es]

theorem filter_innerRemove (p : Entry → Bool)
    (hp : ∀ t : String, p (some t, CodeElem.emptyLine) = false) :
    ∀ (fuel : Nat) (l : List Entry) (i : Int),
      ((innerRemove fuel l i).1).filter p = l.filter p
  | 0, l, i => rfl
  | fuel + 1, l, i => by
    rw [innerRemove]
    cases hg : pyGet l (i - 1) with
    | none => rfl
    | some e =>
      rcases e with ⟨c, elem⟩
      cases elem with
      | emptyLine =>
        cases c with
        | none => rfl
        | some comment =>
          simp only
          rw [filter_innerRemove p hp fuel (removeFirst comment l) (i - 1),
            filter_removeFirst p hp]
      | func sig b => cases c <;> rfl
      | other n => cases c <;> rfl

theorem filter_removeOuter (p : Entry → Bool)
    (hp : ∀ t : String, p (some t, CodeElem.emptyLine) = false) :
    ∀ (fuel : Nat) (l : List Entry) (i : Int),
      ((removeOuter fuel l i).1).filter p = l.filter p
  | 0, l, i => rfl
  | fuel + 1, l, i => by
    rw [removeOuter]
    by_cases hend : i + 1 = (l.length : Int)
    · rw [if_pos hend]
    · rw [if_neg hend]
      cases hg : pyGet l (i + 1) with
      | none => rfl
      | some e =>
        rcases e with ⟨c, elem⟩
        cases elem with
        | emptyLine => exact filter_removeOuter p hp fuel l (i + 1)
        | func sig b =>
          simp only
          by_cases hi : needInstrumentation sig = true
          · rw [if_pos hi]
            have hinner := filter_innerRemove p hp l.length l (i + 1)
            cases hrec : innerRemove l.length l (i + 1) with
            | mk l2 rest =>
              rcases rest with ⟨i2, ok⟩
              rw [hrec] at hinner
              cases ok
              · simpa using hinner
              · simp only
                rw [filter_removeOuter p hp fuel l2 i2]
                simpa using hinner
          · rw [if_neg hi]
            exact filter_removeOuter p hp fuel l (i + 1)
        | other n => exact filter_removeOuter p hp fuel l (i + 1)

theorem filter_commentEntries (p : Entry → Bool)
    (hp : ∀ t : String, p (some t, CodeElem.emptyLine) = false)
    (lines : List String) : (commentEntries lines).filter p = [] := by
  induction lines with
  | nil => rfl
  | cons a as ih =>
    rw [commentEntries] at ih ⊢
    rw [List.map_cons, List.filter_cons_of_neg (by simp [hp]), ih]

theorem filter_addDocAux (p : Entry → Bool)
    (hp : ∀ t : String, p (some t, CodeElem.emptyLine) = false) (dict : DocMap) :
    ∀ (k : Nat) (l : List Entry), ((addDocAux dict k l).1).filter p = l.filter p
  | 0, l => rfl
  | k + 1, l => by
    rw [addDocAux]
    cases hg : l[k]? with
    | none => rfl
    | some e =>
      rcases e with ⟨c, elem⟩
      cases elem with
      | emptyLine => exact filter_addDocAux p hp dict k l
      | func sig b =>
        simp only
        by_cases hi : needInstrumentation sig = true
        · rw [if_pos hi]
          cases hd : dictGet dict sig.name with
          | none => rfl
          | some doc =>
            simp only
            rw [filter_addDocAux p hp dict k (l.take k ++ commentEntries doc ++ l.drop k)]
            rw [List.filter_append, List.filter_append, filter_commentEntries p hp,
              List.append_nil, ← List.filter_append, List.take_append_drop]
        · rw [if_neg hi]
          exact filter_addDocAux p hp dict k l
      | other n => exact filter_addDocAux p hp dict k l

/-- Across the whole pipeline (and even when a pass aborts with an
IndexError or KeyError), the entries that are not comment-carrying empty
lines are preserved, in order; insertion only adds comment-carrying
empty-line entries. -/
theorem filter_pipeline (p : Entry → Bool)
    (hp : ∀ t : String, p (some t, CodeElem.emptyLine) = false)
    (elements : List Entry) : ((pipeline elements).1).filter p = elements.filter p := by
  rw [pipeline]
  have hrem := filter_removeOuter p hp (elements.length + 2) elements (-1)
  cases hr : removeDocumentation elements with
  | mk l1 ok =>
    rw [removeDocumentation] at hr
    rw [hr] at hrem
    cases ok
    · simpa using hrem
    · simp only
      rw [addDocumentation, filter_addDocAux p hp]
      simpa using hrem

/-! ### Behaviour of the three passes on a block of comment lines followed
by one function declaration -/

/-- The upward scan of `get_documentation` collects the comment lines above
the declaration in bottom-to-top order: scanning a block of comment entries
yields the reversed line list. -/
theorem collect_comments (C : List String) :
    ∀ rest : List Entry, collectDocAux (commentEntries C ++ rest) C.length = C.reverse := by
  induction C using List.reverseRecOn with
  | nil => intro rest; rfl
  | append_singleton D a ih =>
    intro rest
    have hlen : (D ++ [a]).length = D.length + 1 := by simp
    have hc : commentEntries (D ++ [a]) ++ rest
        = commentEntries D ++ ((some a, CodeElem.emptyLine) :: rest) := by
      simp [commentEntries]
    rw [hlen, hc, collectDocAux]
    have hget : (commentEntries D ++ ((some a, CodeElem.emptyLine) :: rest))[D.length]?
        = some (some a, CodeElem.emptyLine) := by
      rw [List.getElem?_append_right (by simp [commentEntries])]
      simp [commentEntries]
    rw [hget, ih ((some a, CodeElem.emptyLine) :: rest)]
    simp

/-- `get_documentation` skips indices that hold comment entries. -/
theorem getDocAux_skip (m : List Entry) :
    ∀ (k : Nat) (d : DocMap),
      (∀ j : Nat, j < k → ∃ s, m[j]? = some (some s, CodeElem.emptyLine)) →
      getDocAux m k d = d
  | 0, _, _ => rfl
  | k + 1, d, h => by
    obtain ⟨s, hs⟩ := h k (Nat.lt_succ_self k)
    rw [getDocAux, hs]
    exact getDocAux_skip m k d fun j hj => h j (Nat.lt_succ_of_lt hj)

/-- On a block of comment lines followed by one eligible function, the first
pass stores exactly one binding: the function's regenerated documentation,
computed from the bottom-to-top (reversed) prior lines. -/
theorem getDoc_family (C : List String) (sig : FuncSig)
    (b : List (Option String × CodeElem)) (c : Option String)
    (h0 : needInstrumentation sig = true) :
    getDocumentation (commentEntries C ++ [(c, CodeElem.func sig b)]) =
      [(sig.name, createFunctionDocumentation C.reverse sig)] := by
  have hlen : (commentEntries C ++ [(c, CodeElem.func sig b)]).length = C.length + 1 := by
    simp [commentEntries]
  rw [getDocumentation, hlen, getDocAux]
  have hget : (commentEntries C ++ [(c, CodeElem.func sig b)])[C.length]?
      = some (c, CodeElem.func sig b) := by
    rw [List.getElem?_append_right (by simp [commentEntries])]
    simp [commentEntries]
  rw [hget]
  simp only [h0, if_true]
  rw [collect_comments C [(c, CodeElem.func sig b)]]
  have hskip : getDocAux (commentEntries C ++ [(c, CodeElem.func sig b)]) C.length
      (dictSet [] sig.name (createFunctionDocumentation C.reverse sig))
      = dictSet [] sig.name (createFunctionDocumentation C.reverse sig) := by
    refine getDocAux_skip _ C.length _ fun j hj => ?_
    refine ⟨C[j], ?_⟩
    rw [List.getElem?_append_left (by simp [commentEntries]; omega)]
    rw [commentEntries, List.getElem?_map, List.getElem?_eq_getElem hj]
    rfl
  rw [hskip]
  rfl

/-- The outer removal loop passes over `k` consecutive non-function entries,
advancing `i` by `k` and spending `k` fuel. -/
theorem removeOuter_skip :
    ∀ (k fuel : Nat) (m : List Entry) (j : Nat),
      (∀ t : Nat, j ≤ t → t < j + k → ∃ s, m[t]? = some (some s, CodeElem.emptyLine)) →
      j + k < m.length →
      removeOuter (k + fuel) m ((j : Int) - 1)
        = removeOuter fuel m (((j + k : Nat) : Int) - 1)
  | 0, fuel, m, j, _, _ => by norm_num
  | k + 1, fuel, m, j, h, hlen => by
    have hfuel : k + 1 + fuel = (k + fuel) + 1 := by omega
    rw [hfuel, removeOuter]
    have hj : j < m.length := by omega
    have hne : ¬((j : Int) - 1 + 1 = (m.length : Int)) := by
      intro hcontra
      omega
    rw [if_neg hne]
    obtain ⟨s, hs⟩ := h j (le_refl j) (by omega)
    have hpg : pyGet m ((j : Int) - 1 + 1) = some (some s, CodeElem.emptyLine) := by
      have hj1 : (j : Int) - 1 + 1 = ((j : Nat) : Int) := by ring
      rw [hj1, pyGet, if_pos (Int.ofNat_nonneg j), Int.toNat_ofNat]
      exact hs
    rw [hpg]
    have hrec := removeOuter_skip k fuel m (j + 1)
      (fun t ht1 ht2 => h t (by omega) (by omega)) (by omega)
    have hcast1 : ((j + 1 : Nat) : Int) - 1 = (j : Int) - 1 + 1 := by push_cast; ring
    have hcast2 : ((j + 1 + k : Nat) : Int) - 1 = ((j + (k + 1) : Nat) : Int) - 1 := by
      push_cast; ring
    rw [hcast1, hcast2] at hrec
    exact hrec

/-- `list.remove` of a comment line present in the comment block removes one
comment line and leaves the tail untouched. -/
theorem removeFirst_comments {a : String} :
    ∀ (D : List String) (rest : List Entry), a ∈ D →
      ∃ D2 : List String,
        removeFirst a (commentEntries D ++ rest) = commentEntries D2 ++ rest ∧
          D2.length + 1 = D.length
  | [], _, ha => absurd ha (List.not_mem_nil a)
  | d :: D, rest, ha => by
    by_cases hd : d = a
    · refine ⟨D, ?_, by simp⟩
      rw [commentEntries, List.map_cons, List.cons_append, removeFirst,
        if_pos (by simp [isTarget, hd])]
      rfl
    · have ha2 : a ∈ D := by
        rcases List.mem_cons.mp ha with h | h
        · exact absurd h.symm hd
        · exact h
      obtain ⟨D2, h1, h2⟩ := removeFirst_comments D rest ha2
      refine ⟨d :: D2, ?_, by simpa using h2⟩
      simp only [commentEntries, List.map_cons, List.cons_append] at h1 ⊢
      rw [removeFirst, if_neg (by simp [isTarget, hd]), h1]

/-- The inner removal loop, started at an eligible declaration preceded by a
block of comment entries, removes the whole block (one `list.remove` per
line) and stops at the declaration with `i = 0`. -/
theorem innerRemove_strip :
    ∀ (k fuel : Nat) (D : List String) (f : Entry),
      D.length = k → k < fuel → isCommentLine f = false →
      innerRemove fuel (commentEntries D ++ [f]) ((k : Nat) : Int) = ([f], 0, true)
  | 0, fuel, D, f, hD, hfuel, hf => by
    obtain ⟨fuel2, rfl⟩ : ∃ fuel2, fuel = fuel2 + 1 := ⟨fuel - 1, by omega⟩
    have hD0 : D = [] := List.eq_nil_of_length_eq_zero hD
    subst hD0
    rw [innerRemove]
    have hpg : pyGet ([f] : List Entry) (((0 : Nat) : Int) - 1) = some f := by
      rw [pyGet]
      norm_num
    simp only [commentEntries, List.map_nil, List.nil_append]
    rw [hpg]
    rcases f with ⟨c, elem⟩
    cases elem with
    | emptyLine =>
      cases c with
      | none => rfl
      | some s => simp [isCommentLine] at hf
    | func sig b => cases c <;> rfl
    | other n => cases c <;> rfl
  | k + 1, fuel, D, f, hD, hfuel, hf => by
    obtain ⟨fuel2, rfl⟩ : ∃ fuel2, fuel = fuel2 + 1 := ⟨fuel - 1, by omega⟩
    rw [innerRemove]
    have hk : (((k + 1 : Nat) : Nat) : Int) - 1 = ((k : Nat) : Int) := by push_cast; ring
    have hjk : k < D.length := by omega
    have hpg : pyGet (commentEntries D ++ [f]) (((k + 1 : Nat) : Int) - 1)
        = some (some (D.get ⟨k, hjk⟩), CodeElem.emptyLine) := by
      rw [hk, pyGet, if_pos (Int.ofNat_nonneg k), Int.toNat_ofNat]
      rw [List.getElem?_append_left (by simpa [commentEntries] using hjk)]
      rw [commentEntries, List.getElem?_map, List.getElem?_eq_getElem hjk]
      rfl
    rw [hpg]
    obtain ⟨D2, h1, h2⟩ :=
      removeFirst_comments (a := D.get ⟨k, hjk⟩) D ([f] : List Entry)
        (List.get_mem D k hjk)
    simp only
    rw [hk, h1]
    exact innerRemove_strip k fuel2 D2 f (by omega) (by omega) hf

/-- `remove_documentation` on a block of comment lines followed by one
eligible function deletes exactly the comment block. -/
theorem remove_family (C : List String) (sig : FuncSig)
    (b : List (Option String × CodeElem)) (c : Option String)
    (h0 : needInstrumentation sig = true) :
    removeDocumentation (commentEntries C ++ [(c, CodeElem.func sig b)]) =
      ([(c, CodeElem.func sig b)], true) := by
  have hlen : (commentEntries C ++ [(c, CodeElem.func sig b)]).length = C.length + 1 := by
    simp [commentEntries]
  rw [removeDocumentation, hlen]
  have hstart : (-1 : Int) = ((0 : Nat) : Int) - 1 := by norm_num
  have hfuel : C.length + 1 + 2 = C.length + 3 := by omega
  rw [hstart, hfuel]
  have hskip := removeOuter_skip C.length 3 (commentEntries C ++ [(c, CodeElem.func sig b)]) 0
    (fun t ht1 ht2 => by
      refine ⟨C[t], ?_⟩
      rw [List.getElem?_append_left (by simp [commentEntries]; omega)]
      rw [commentEntries, List.getElem?_map, List.getElem?_eq_getElem (by omega)]
      rfl)
    (by simp [commentEntries])
  rw [hskip]
  have hidx : (((0 + C.length : Nat) : Int) - 1) = (C.length : Int) - 1 := by
    push_cast; ring
  rw [hidx]
  rw [show (3 : Nat) = 2 + 1 from rfl, removeOuter]
  have hne : ¬((C.length : Int) - 1 + 1
      = ((commentEntries C ++ [(c, CodeElem.func sig b)]).length : Int)) := by
    rw [hlen]; push_cast; omega
  rw [if_neg hne]
  have hpg : pyGet (commentEntries C ++ [(c, CodeElem.func sig b)])
      ((C.length : Int) - 1 + 1) = some (c, CodeElem.func sig b) := by
    have h1 : (C.length : Int) - 1 + 1 = ((C.length : Nat) : Int) := by ring
    rw [h1, pyGet, if_pos (Int.ofNat_nonneg _), Int.toNat_ofNat]
    rw [List.getElem?_append_right (by simp [commentEntries])]
    simp [commentEntries]
  rw [hpg]
  simp only
  rw [if_pos h0]
  have hstrip := innerRemove_strip C.length
    (commentEntries C ++ [(c, CodeElem.func sig b)]).length C
    (c, CodeElem.func sig b) rfl (by rw [hlen]; omega) (by simp [isCommentLine])
  have hidx2 : (C.length : Int) - 1 + 1 = ((C.length : Nat) : Int) := by ring
  rw [hidx2, hstrip]
  simp only
  rw [show (2 : Nat) = 1 + 1 from rfl, removeOuter]
  rw [if_pos (by simp)]

/-- `add_documentation` on a single eligible function inserts exactly the
mapped block above the declaration. -/
theorem add_family (dict : DocMap) (sig : FuncSig)
    (b : List (Option String × CodeElem)) (c : Option String) (doc : List String)
    (h0 : needInstrumentation sig = true) (hd : dictGet dict sig.name = some doc) :
    addDocumentation dict [(c, CodeElem.func sig b)] =
      (commentEntries doc ++ [(c, CodeElem.func sig b)], true) := by
  rw [addDocumentation, show ([(c, CodeElem.func sig b)] : List Entry).length = 1 from rfl]
  rw [show (1 : Nat) = 0 + 1 from rfl, addDocAux]
  rw [show ([(c, CodeElem.func sig b)] : List Entry)[0]?
      = some (c, CodeElem.func sig b) from rfl]
  simp only
  rw [if_pos h0, hd]
  simp only
  rw [List.take_zero, List.drop_zero, List.nil_append, addDocAux]

/-- The full pipeline on a block of comment lines followed by one eligible
function: the comment block is replaced by the regenerated documentation of
the reversed prior lines. -/
theorem pipeline_docfam (C : List String) (sig : FuncSig)
    (b : List (Option String × CodeElem)) (c : Option String)
    (h0 : needInstrumentation sig = true) :
    pipeline (commentEntries C ++ [(c, CodeElem.func sig b)]) =
      (commentEntries (createFunctionDocumentation C.reverse sig) ++
        [(c, CodeElem.func sig b)], true) := by
  rw [pipeline, getDoc_family C sig b c h0, remove_family C sig b c h0]
  exact add_family _ sig b c _ h0 (by simp [dictGet])

/-! ### Regenerating a documentation block from its own output -/


theorem regenerated_reverse (prior : List String) (f : FuncSig) :
    (regenerated prior f).reverse =
      ((returnMembers f).map (returnSlot prior)).reverse ++
        ((f.arguments.map (paramSlot prior)).reverse ++
          ((devSlot prior).toList.reverse ++ [noticeSlot prior])) := by
  simp [regenerated, List.reverse_append, List.append_assoc]

theorem createDoc_eq_regenerated (prior : List String) (f : FuncSig)
    (h : firstSubstring prior "@inheritdoc" = none) :
    createFunctionDocumentation prior f = regenerated prior f :=
  createDoc_eq_slots prior f h

theorem firstSubstring_append_none {l1 l2 : List String} {pat : String}
    (h : ∀ x ∈ l1, substrB pat x = false) :
    firstSubstring (l1 ++ l2) pat = firstSubstring l2 pat := by
  rw [firstSubstring, firstSubstring, List.find?_append,
    List.find?_eq_none.mpr (by simpa using h)]
  rfl

theorem firstSubstring_append_some {l1 l2 : List String} {pat v : String}
    (h : firstSubstring l1 pat = some v) :
    firstSubstring (l1 ++ l2) pat = some v := by
  rw [firstSubstring] at h ⊢
  rw [List.find?_append, h]
  rfl

/-- The line kept for a parameter always contains that parameter's pattern
(either it was selected for containing it, or it is the placeholder
itself). -/
theorem paramSlot_self (prior : List String) (p : TypedIdentifier) :
    substrB (paramLine p) (paramSlot prior p) = true := by
  rw [paramSlot]
  cases hpp : firstSubstring prior (paramLine p) with
  | some X => simpa using firstSubstring_matches hpp
  | none => simpa using substrB_self (paramLine p)

theorem returnSlot_self (prior : List String) (r : TypedIdentifier) :
    substrB (returnLine r) (returnSlot prior r) = true := by
  rw [returnSlot]
  cases hpp : firstSubstring prior (returnLine r) with
  | some X => simpa using firstSubstring_matches hpp
  | none => simpa using substrB_self (returnLine r)

/-- Regeneration keeps the notice slot, provided no other emitted line
contains the notice pattern. -/
theorem idem_notice (prior : List String) (f : FuncSig)
    (hNr : ∀ L ∈ (returnMembers f).map (returnSlot prior), substrB "@notice " L = false)
    (hNp : ∀ L ∈ f.arguments.map (paramSlot prior), substrB "@notice " L = false)
    (hNd : ∀ L ∈ (devSlot prior).toList, substrB "@notice " L = false) :
    noticeSlot ((regenerated prior f).reverse) = noticeSlot prior := by
  rw [noticeSlot, regenerated_reverse]
  rw [firstSubstring_append_none (fun x hx => hNr x (List.mem_reverse.mp hx))]
  rw [firstSubstring_append_none (fun x hx => hNp x (List.mem_reverse.mp hx))]
  rw [firstSubstring_append_none (fun x hx => hNd x (List.mem_reverse.mp hx))]
  rw [noticeSlot]
  cases hni : firstSubstring prior "@notice " with
  | some X =>
    simp only [Option.getD_some]
    rw [firstSubstring, List.find?_cons_of_pos _ (firstSubstring_matches hni)]
    rfl
  | none =>
    simp only [Option.getD_none]
    rw [firstSubstring, List.find?_cons_of_neg _ (by decide)]
    rfl

/-- Regeneration keeps the dev slot, provided no parameter or return line
contains the dev pattern. -/
theorem idem_dev (prior : List String) (f : FuncSig)
    (hDr : ∀ L ∈ (returnMembers f).map (returnSlot prior), substrB "@dev" L = false)
    (hDp : ∀ L ∈ f.arguments.map (paramSlot prior), substrB "@dev" L = false) :
    devSlot ((regenerated prior f).reverse) = devSlot prior := by
  rw [devSlot, regenerated_reverse]
  rw [firstSubstring_append_none (fun x hx => hDr x (List.mem_reverse.mp hx))]
  rw [firstSubstring_append_none (fun x hx => hDp x (List.mem_reverse.mp hx))]
  rw [devSlot]
  cases hdvc : firstSubstring prior "@dev" with
  | some D =>
    simp only [Option.toList_some, List.reverse_singleton, List.singleton_append]
    rw [firstSubstring, List.find?_cons_of_pos _ (firstSubstring_matches hdvc)]
  | none =>
    simp only [Option.toList_none, List.reverse_nil, List.nil_append]
    have hnone : substrB "@dev" (noticeSlot prior) = false := by
      rw [noticeSlot]
      cases hni : firstSubstring prior "@notice " with
      | some X =>
        simp only [Option.getD_some]
        simpa using List.find?_eq_none.mp hdvc X (firstSubstring_mem hni)
      | none => decide
    rw [firstSubstring, List.find?_cons_of_neg _ (by simp [hnone])]
    rfl

/-- Regeneration keeps each parameter slot, provided no return line contains
the parameter's pattern and any other parameter line containing it carries
the same text. -/
theorem idem_param (prior : List String) (f : FuncSig) (p : TypedIdentifier)
    (hp : p ∈ f.arguments)
    (hP1 : ∀ L ∈ (returnMembers f).map (returnSlot prior), substrB (paramLine p) L = false)
    (hP2 : ∀ q ∈ f.arguments, substrB (paramLine p) (paramSlot prior q) = true →
      paramSlot prior q = paramSlot prior p) :
    paramSlot ((regenerated prior f).reverse) p = paramSlot prior p := by
  rw [paramSlot, regenerated_reverse]
  rw [firstSubstring_append_none (fun x hx => hP1 x (List.mem_reverse.mp hx))]
  have hfind : firstSubstring ((f.arguments.map (paramSlot prior)).reverse)
      (paramLine p) = some (paramSlot prior p) := by
    rw [firstSubstring]
    refine find?_eq_some_unique ?_ ?_
    · exact ⟨paramSlot prior p,
        List.mem_reverse.mpr (List.mem_map_of_mem _ hp), paramSlot_self prior p⟩
    · intro x hx hpx
      obtain ⟨q, hq, rfl⟩ := List.mem_map.mp (List.mem_reverse.mp hx)
      exact hP2 q hq hpx
  rw [firstSubstring_append_some hfind]
  rfl

/-- Regeneration keeps each return slot, provided any other return line
containing the member's pattern carries the same text. -/
theorem idem_return (prior : List String) (f : FuncSig) (r : TypedIdentifier)
    (hr : r ∈ returnMembers f)
    (hR : ∀ r2 ∈ returnMembers f, substrB (returnLine r) (returnSlot prior r2) = true →
      returnSlot prior r2 = returnSlot prior r) :
    returnSlot ((regenerated prior f).reverse) r = returnSlot prior r := by
  rw [returnSlot, regenerated_reverse]
  have hfind : firstSubstring (((returnMembers f).map (returnSlot prior)).reverse)
      (returnLine r) = some (returnSlot prior r) := by
    rw [firstSubstring]
    refine find?_eq_some_unique ?_ ?_
    · exact ⟨returnSlot prior r,
        List.mem_reverse.mpr (List.mem_map_of_mem _ hr), returnSlot_self prior r⟩
    · intro x hx hpx
      obtain ⟨r2, hr2, rfl⟩ := List.mem_map.mp (List.mem_reverse.mp hx)
      exact hR r2 hr2 hpx
  rw [firstSubstring_append_some hfind]
  rfl

/-- Regenerating a documentation block from its own previously generated
block (scanned bottom-to-top, i.e. reversed) reproduces it line for line,
provided no emitted line contains the tag pattern of a different slot. -/
theorem createDoc_idem (prior : List String) (f : FuncSig)
    (hIn : ∀ L ∈ createFunctionDocumentation prior f, substrB "@inheritdoc" L = false)
    (hNr : ∀ L ∈ (returnMembers f).map (returnSlot prior), substrB "@notice " L = false)
    (hNp : ∀ L ∈ f.arguments.map (paramSlot prior), substrB "@notice " L = false)
    (hNd : ∀ L ∈ (devSlot prior).toList, substrB "@notice " L = false)
    (hDr : ∀ L ∈ (returnMembers f).map (returnSlot prior), substrB "@dev" L = false)
    (hDp : ∀ L ∈ f.arguments.map (paramSlot prior), substrB "@dev" L = false)
    (hP1 : ∀ p ∈ f.arguments, ∀ L ∈ (returnMembers f).map (returnSlot prior),
      substrB (paramLine p) L = false)
    (hP2 : ∀ p ∈ f.arguments, ∀ q ∈ f.arguments,
      substrB (paramLine p) (paramSlot prior q) = true →
        paramSlot prior q = paramSlot prior p)
    (hR : ∀ r ∈ returnMembers f, ∀ r2 ∈ returnMembers f,
      substrB (returnLine r) (returnSlot prior r2) = true →
        returnSlot prior r2 = returnSlot prior r) :
    createFunctionDocumentation (createFunctionDocumentation prior f).reverse f =
      createFunctionDocumentation prior f := by
  have hpi : firstSubstring prior "@inheritdoc" = none := by
    cases hcase : firstSubstring prior "@inheritdoc" with
    | none => rfl
    | some ih =>
      have h1 := createDoc_inheritdoc prior f hcase
      have h2 := hIn ih (by rw [h1]; exact List.mem_singleton_self ih)
      rw [firstSubstring_matches hcase] at h2
      cases h2
  rw [createDoc_eq_regenerated prior f hpi] at hIn ⊢
  have hpi2 : firstSubstring ((regenerated prior f).reverse) "@inheritdoc" = none :=
    firstSubstring_eq_none.mpr fun x hx => hIn x (List.mem_reverse.mp hx)
  rw [createDoc_eq_regenerated _ f hpi2]
  have h1 := idem_notice prior f hNr hNp hNd
  have h2 := idem_dev prior f hDr hDp
  have h3 : List.map (paramSlot ((regenerated prior f).reverse)) f.arguments
      = List.map (paramSlot prior) f.arguments :=
    List.map_congr_left fun p hp => idem_param prior f p hp (hP1 p hp) (hP2 p hp)
  have h4 : List.map (returnSlot ((regenerated prior f).reverse)) (returnMembers f)
      = List.map (returnSlot prior) (returnMembers f) :=
    List.map_congr_left fun r hr => idem_return prior f r hr (hR r hr)
  simp only [regenerated] at h1 h2 h3 h4 ⊢
  rw [h1, h2, h3, h4]

/-! ### Ineligible declarations leave the module unchanged -/

/-- The pipeline on a single ineligible declaration changes nothing. -/
theorem pipeline_skip_single (sig : FuncSig) (b : List (Option String × CodeElem))
    (c : Option String) (hF : needInstrumentation sig = false) :
    pipeline [(c, CodeElem.func sig b)] = ([(c, CodeElem.func sig b)], true) := by
  have hget : getDocumentation [(c, CodeElem.func sig b)] = [] := by
    rw [getDocumentation, show ([(c, CodeElem.func sig b)] : List Entry).length = 0 + 1 from rfl,
      getDocAux,
      show ([(c, CodeElem.func sig b)] : List Entry)[0]? = some (c, CodeElem.func sig b) from rfl]
    simp only
    rw [if_neg (by simp [hF]), getDocAux]
  have hrem : removeDocumentation [(c, CodeElem.func sig b)]
      = ([(c, CodeElem.func sig b)], true) := by
    rw [removeDocumentation,
      show ([(c, CodeElem.func sig b)] : List Entry).length + 2 = 2 + 1 from rfl,
      removeOuter, if_neg (by norm_num),
      show pyGet [(c, CodeElem.func sig b)] (-1 + 1) = some (c, CodeElem.func sig b) from rfl]
    simp only
    rw [if_neg (by simp [hF]), show (2 : Nat) = 1 + 1 from rfl, removeOuter,
      if_pos (by norm_num)]
  have hadd : addDocumentation [] [(c, CodeElem.func sig b)]
      = ([(c, CodeElem.func sig b)], true) := by
    rw [addDocumentation, show ([(c, CodeElem.func sig b)] : List Entry).length = 0 + 1 from rfl,
      addDocAux,
      show ([(c, CodeElem.func sig b)] : List Entry)[0]? = some (c, CodeElem.func sig b) from rfl]
    simp only
    rw [if_neg (by simp [hF]), addDocAux]
  rw [pipeline, hget, hrem]
  simp only
  rw [hadd]

/-- The pipeline on a comment line followed by an ineligible declaration
changes nothing: the comment is left untouched. -/
theorem pipeline_skip_pair (sig : FuncSig) (b : List (Option String × CodeElem))
    (c : Option String) (s : String) (hF : needInstrumentation sig = false) :
    pipeline [(some s, CodeElem.emptyLine), (c, CodeElem.func sig b)] =
      ([(some s, CodeElem.emptyLine), (c, CodeElem.func sig b)], true) := by
  set m : List Entry := [(some s, CodeElem.emptyLine), (c, CodeElem.func sig b)] with hm
  have hget : getDocumentation m = [] := by
    rw [getDocumentation, show m.length = (0 + 1) + 1 from rfl, getDocAux,
      show m[0 + 1]? = some (c, CodeElem.func sig b) from rfl]
    simp only
    rw [if_neg (by simp [hF]), getDocAux,
      show m[0]? = some (some s, CodeElem.emptyLine) from rfl, getDocAux]
  have hrem : removeDocumentation m = (m, true) := by
    rw [removeDocumentation, show m.length + 2 = 3 + 1 from rfl,
      removeOuter, if_neg (by simp [hm]),
      show pyGet m (-1 + 1) = some (some s, CodeElem.emptyLine) from rfl]
    rw [show (3 : Nat) = 2 + 1 from rfl, removeOuter, if_neg (by simp [hm]),
      show pyGet m (-1 + 1 + 1) = some (c, CodeElem.func sig b) from rfl]
    simp only
    rw [if_neg (by simp [hF]), show (2 : Nat) = 1 + 1 from rfl, removeOuter,
      if_pos (by simp [hm])]
  have hadd : addDocumentation [] m = (m, true) := by
    rw [addDocumentation, show m.length = (0 + 1) + 1 from rfl, addDocAux,
      show m[0 + 1]? = some (c, CodeElem.func sig b) from rfl]
    simp only
    rw [if_neg (by simp [hF]), addDocAux,
      show m[0]? = some (some s, CodeElem.emptyLine) from rfl, addDocAux]
  rw [pipeline, hget, hrem]
  simp only
  rw [hadd]


/-! ### The claims -/

/-- C1 (amended): a function-shaped declaration with an empty decorator set
is NOT classified documentable (the `any` over an empty decorator list is
false), and the pipeline attaches no documentation block to it; a
declaration needs at least one decorator outside storage_var to be
documented. -/
theorem c1_empty_decorators_not_documented (sig : FuncSig)
    (b : List (Option String × CodeElem)) (c : Option String)
    (h : sig.decorators = []) :
    needInstrumentation sig = false ∧
      pipeline [(c, CodeElem.func sig b)] = ([(c, CodeElem.func sig b)], true) := by
  have hF : needInstrumentation sig = false := by simp [needInstrumentation, h]
  exact ⟨hF, pipeline_skip_single sig b c hF⟩

/-- C1 witness: the amended claim at a concrete undecorated function. -/
theorem c1_witness :
    needInstrumentation initSig = false ∧
      pipeline [(none, CodeElem.func initSig [])]
        = ([(none, CodeElem.func initSig [])], true) :=
  c1_empty_decorators_not_documented initSig [] none rfl

/-- C1 counterexample: an undecorated function-shaped declaration (not a
struct, not a namespace) is classified Skip by the Eligibility Filter and
the pipeline leaves the module unchanged, contradicting the claim that it is
classified Document and receives a documentation block. -/
theorem c1_counterexample :
    needInstrumentation undecoratedSig = false ∧
      pipeline [(none, CodeElem.func undecoratedSig [])]
        = ([(none, CodeElem.func undecoratedSig [])], true) :=
  ⟨rfl, rfl⟩

/-- C2 (amended): on a module of comment lines above one documentable
function, running the pipeline a second time reproduces its own output
verbatim, provided no regenerated line contains a tag pattern of a different
slot (no line doubles as notice and param text, placeholders do not embed
other tags, lines reused for the same pattern agree). -/
theorem c2_pipeline_idempotent (C : List String) (sig : FuncSig)
    (b : List (Option String × CodeElem)) (c : Option String)
    (h0 : needInstrumentation sig = true)
    (hIn : ∀ L ∈ createFunctionDocumentation C.reverse sig,
      substrB "@inheritdoc" L = false)
    (hNr : ∀ L ∈ (returnMembers sig).map (returnSlot C.reverse),
      substrB "@notice " L = false)
    (hNp : ∀ L ∈ sig.arguments.map (paramSlot C.reverse),
      substrB "@notice " L = false)
    (hNd : ∀ L ∈ (devSlot C.reverse).toList, substrB "@notice " L = false)
    (hDr : ∀ L ∈ (returnMembers sig).map (returnSlot C.reverse),
      substrB "@dev" L = false)
    (hDp : ∀ L ∈ sig.arguments.map (paramSlot C.reverse),
      substrB "@dev" L = false)
    (hP1 : ∀ p ∈ sig.arguments, ∀ L ∈ (returnMembers sig).map (returnSlot C.reverse),
      substrB (paramLine p) L = false)
    (hP2 : ∀ p ∈ sig.arguments, ∀ q ∈ sig.arguments,
      substrB (paramLine p) (paramSlot C.reverse q) = true →
        paramSlot C.reverse q = paramSlot C.reverse p)
    (hR : ∀ r ∈ returnMembers sig, ∀ r2 ∈ returnMembers sig,
      substrB (returnLine r) (returnSlot C.reverse r2) = true →
        returnSlot C.reverse r2 = returnSlot C.reverse r) :
    pipeline ((pipeline (commentEntries C ++ [(c, CodeElem.func sig b)])).1) =
      ((pipeline (commentEntries C ++ [(c, CodeElem.func sig b)])).1, true) := by
  rw [pipeline_docfam C sig b c h0]
  simp only
  rw [pipeline_docfam (createFunctionDocumentation C.reverse sig) sig b c h0]
  rw [createDoc_idem C.reverse sig hIn hNr hNp hNd hDr hDp hP1 hP2 hR]

/-- C2 witness: the spec's transfer example with zero prior documentation is
a fixed point of the pipeline after one run. -/
theorem c2_witness :
    pipeline ((pipeline (commentEntries [] ++ [(none, CodeElem.func transferSig [])])).1) =
      ((pipeline (commentEntries [] ++ [(none, CodeElem.func transferSig [])])).1, true) :=
  c2_pipeline_idempotent [] transferSig [] none (by decide) (by decide) (by decide)
    (by decide) (by decide) (by decide) (by decide) (by decide) (by decide) (by decide)

/-- C2 counterexample: an authored line containing both a notice and a param
pattern breaks idempotence.  The first run keeps the notice line
`@notice hello` and the param line; the second run resolves the notice slot
to the param line (the first bottom-to-top match), so the regenerated blocks
of the two runs differ line for line. -/
theorem c2_counterexample :
    pipeline
        [(some "@param a the @notice thing", CodeElem.emptyLine),
          (some "@notice hello", CodeElem.emptyLine),
          (none, CodeElem.func paramASig [])] =
      ([(some "@notice hello", CodeElem.emptyLine),
        (some "@param a the @notice thing", CodeElem.emptyLine),
        (none, CodeElem.func paramASig [])], true) ∧
    pipeline
        [(some "@notice hello", CodeElem.emptyLine),
          (some "@param a the @notice thing", CodeElem.emptyLine),
          (none, CodeElem.func paramASig [])] =
      ([(some "@param a the @notice thing", CodeElem.emptyLine),
        (some "@param a the @notice thing", CodeElem.emptyLine),
        (none, CodeElem.func paramASig [])], true) ∧
    ¬([some "@param a the @notice thing", some "@param a the @notice thing"]
        = ([some "@notice hello", some "@param a the @notice thing"] :
            List (Option String))) :=
  ⟨rfl, rfl, by decide⟩

/-- C3 (amended): with zero prior documentation the schema builder emits the
`@notice` placeholder, one `@param <name> ` line per parameter, and one
`@returns <name> : <formatted type> ` line per return member: the returns
line also carries the formatted type, not just the member name. -/
theorem c3_returns_lines (f : FuncSig) (ms : List TypedIdentifier)
    (h : f.returns = some ms) :
    createFunctionDocumentation [] f =
      "@notice" :: (f.arguments.map paramLine ++ ms.map returnLine) := by
  rw [createDoc_eq_slots [] f rfl]
  have hms : returnMembers f = ms := by rw [returnMembers, h]; rfl
  have hpm : List.map (paramSlot []) f.arguments = List.map paramLine f.arguments :=
    List.map_congr_left fun p _ => by simp [paramSlot, firstSubstring]
  have hrm : List.map (returnSlot []) ms = List.map returnLine ms :=
    List.map_congr_left fun r _ => by simp [returnSlot, firstSubstring]
  simp [noticeSlot, devSlot, firstSubstring, hms, hpm, hrm]

/-- C3 witness: the amended claim at the spec's transfer example. -/
theorem c3_witness :
    createFunctionDocumentation [] transferSig =
      "@notice" :: (transferSig.arguments.map paramLine ++
        [TypedIdentifier.mk "success" "felt"].map returnLine) :=
  c3_returns_lines transferSig [TypedIdentifier.mk "success" "felt"] rfl

/-- C3 counterexample: the transfer example with zero prior documentation
yields `@returns success : felt ` as its fourth line, not the claimed
`@returns success `. -/
theorem c3_counterexample :
    createFunctionDocumentation [] transferSig =
      ["@notice", "@param to ", "@param amount ", "@returns success : felt "] ∧
      (["@notice", "@param to ", "@param amount ", "@returns success : felt "] ≠
        ["@notice", "@param to ", "@param amount ", "@returns success "]) :=
  ⟨rfl, by decide⟩

/-- C4 (amended): the three passes run only over the module's top-level
element list; every function-shaped entry, including a namespace with its
whole nested block, passes through the pipeline untouched and in order —
nested scopes are never processed. -/
theorem c4_no_recursion_into_scopes (elements : List Entry) :
    ((pipeline elements).1).filter isFuncEntry = elements.filter isFuncEntry :=
  filter_pipeline isFuncEntry (fun _ => rfl) elements

/-- C4 counterexample: a namespace whose inner block holds a documentable
function is left completely unchanged by the pipeline, while running the
claimed identical pipeline on the inner block would insert a documentation
block — so the inner block is NOT processed like the top level. -/
theorem c4_counterexample :
    pipeline [(none, CodeElem.func namespaceSig innerBlock)] =
      ([(none, CodeElem.func namespaceSig innerBlock)], true) ∧
      (pipeline innerBlock).1.map Prod.fst ≠ innerBlock.map Prod.fst :=
  ⟨rfl, by decide⟩

/-- C5 (amended): a declaration whose decorators are all `storage_var` is
classified Skip, receives no documentation block and its surrounding comment
is left untouched; but an `event`-only decorated declaration is classified
Document by the code (the filter checks only storage_var). -/
theorem c5_storage_var_only_skipped (sig : FuncSig)
    (b : List (Option String × CodeElem)) (c : Option String) (s : String)
    (h : ∀ d ∈ sig.decorators, d = "storage_var") :
    needInstrumentation sig = false ∧
      pipeline [(some s, CodeElem.emptyLine), (c, CodeElem.func sig b)] =
        ([(some s, CodeElem.emptyLine), (c, CodeElem.func sig b)], true) := by
  have hany : sig.decorators.any (fun d => d != "storage_var") = false := by
    rw [List.any_eq_false]
    intro d hd
    simp [h d hd]
  have hF : needInstrumentation sig = false := by simp [needInstrumentation, hany]
  exact ⟨hF, pipeline_skip_pair sig b c s hF⟩

/-- C5 witness: the amended claim at a concrete storage_var declaration with
an authored comment above it. -/
theorem c5_witness :
    needInstrumentation storageSig = false ∧
      pipeline [(some "the balance map", CodeElem.emptyLine),
          (none, CodeElem.func storageSig [])] =
        ([(some "the balance map", CodeElem.emptyLine),
          (none, CodeElem.func storageSig [])], true) :=
  c5_storage_var_only_skipped storageSig [] none "the balance map" (by decide)

/-- C5 counterexample: a declaration carrying only the `event` decorator is
classified documentable and receives a documentation block, contradicting
the claim that it is skipped. -/
theorem c5_counterexample :
    needInstrumentation eventSig = true ∧
      pipeline [(none, CodeElem.func eventSig [])] =
        ([(some "@notice", CodeElem.emptyLine), (none, CodeElem.func eventSig [])],
          true) :=
  ⟨rfl, rfl⟩

/-- C6 (amended): in the absence of an `@inheritdoc` line, the FIRST prior
line (in the bottom-to-top scan order) containing each canonical tag pattern
is reproduced verbatim in the regenerated block: the notice pattern, the dev
pattern, `@param <name> ` for each declared parameter, and the full
`@returns <name> : <type> ` pattern for each declared return member.  Later
prior lines matching an already-filled slot are dropped (see the
counterexample), which is the correction to the claim. -/
theorem c6_first_match_preserved (prior : List String) (f : FuncSig)
    (hni : firstSubstring prior "@inheritdoc" = none) :
    (∀ L, firstSubstring prior "@notice " = some L →
      L ∈ createFunctionDocumentation prior f) ∧
    (∀ L, firstSubstring prior "@dev" = some L →
      L ∈ createFunctionDocumentation prior f) ∧
    (∀ p, p ∈ f.arguments → ∀ L, firstSubstring prior (paramLine p) = some L →
      L ∈ createFunctionDocumentation prior f) ∧
    (∀ ms r, f.returns = some ms → r ∈ ms → ∀ L,
      firstSubstring prior (returnLine r) = some L →
      L ∈ createFunctionDocumentation prior f) := by
  rw [createDoc_eq_slots prior f hni]
  refine ⟨?_, ?_, ?_, ?_⟩
  · intro L hL
    have hslot : noticeSlot prior = L := by rw [noticeSlot, hL]; rfl
    rw [← hslot]
    exact List.mem_cons_self _ _
  · intro L hL
    apply List.mem_cons_of_mem
    refine List.mem_append_left _ (List.mem_append_left _ ?_)
    rw [devSlot, hL]
    exact List.mem_singleton_self L
  · intro p hp L hL
    apply List.mem_cons_of_mem
    refine List.mem_append_left _ (List.mem_append_right _ ?_)
    refine List.mem_map.mpr ⟨p, hp, ?_⟩
    rw [paramSlot, hL]
    rfl
  · intro ms r hms hr L hL
    apply List.mem_cons_of_mem
    refine List.mem_append_right _ ?_
    refine List.mem_map.mpr ⟨r, ?_, ?_⟩
    · rw [returnMembers, hms]
      exact hr
    · rw [returnSlot, hL]
      rfl

/-- C6 witness: an authored `@param a ` line is reproduced verbatim. -/
theorem c6_witness :
    "@param a hi" ∈ createFunctionDocumentation ["@param a hi"] wSig :=
  (c6_first_match_preserved ["@param a hi"] wSig rfl).2.2.1
    (TypedIdentifier.mk "a" "felt") (by decide) "@param a hi" rfl

/-- C6 counterexample: with two prior lines both matching the notice
pattern, only the first scanned one is reproduced; the other matching line
is dropped, contradicting the claim that ANY matching prior line is
reproduced verbatim. -/
theorem c6_counterexample :
    createFunctionDocumentation ["@notice one", "@notice two"] simpleSig =
      ["@notice one"] ∧
      "@notice two" ∉ createFunctionDocumentation ["@notice one", "@notice two"]
        simpleSig :=
  ⟨rfl, by decide⟩

/-- C7 (confirmed): if any prior line carries `@inheritdoc`, the resulting
documentation block is exactly that single (first such) line, with all
notice, dev, param and returns lines discarded, regardless of the parameter
list and return shape. -/
theorem c7_inheritdoc_total (prior : List String) (f : FuncSig) (L : String)
    (h : firstSubstring prior "@inheritdoc" = some L) :
    createFunctionDocumentation prior f = [L] :=
  createDoc_inheritdoc prior f h

/-- C7 witness: a concrete inheritdoc line collapses the block of a function
with parameters. -/
theorem c7_witness :
    createFunctionDocumentation ["@param a x", "@inheritdoc IERC20"] wSig =
      ["@inheritdoc IERC20"] :=
  c7_inheritdoc_total ["@param a x", "@inheritdoc IERC20"] wSig
    "@inheritdoc IERC20" rfl

/-- C8 (amended): the prior lines of a declaration are collected walking
upward, so the stored documentation is computed from the top-to-bottom lines
REVERSED; `first_substring` then returns the first match of that reversed
list, i.e. the matching line NEAREST the declaration (last in top-to-bottom
source order) wins — not the top-most one as claimed. -/
theorem c8_nearest_line_wins (C : List String) (sig : FuncSig)
    (b : List (Option String × CodeElem)) (c : Option String)
    (h0 : needInstrumentation sig = true) :
    dictGet (getDocumentation (commentEntries C ++ [(c, CodeElem.func sig b)]))
        sig.name = some (createFunctionDocumentation C.reverse sig) := by
  rw [getDoc_family C sig b c h0]
  simp [dictGet]

/-- C8 witness: the amended claim at a two-notice-line module. -/
theorem c8_witness :
    dictGet (getDocumentation (commentEntries ["@notice top", "@notice bottom"] ++
        [(none, CodeElem.func simpleSig [])])) simpleSig.name =
      some (createFunctionDocumentation
        (["@notice top", "@notice bottom"] : List String).reverse simpleSig) :=
  c8_nearest_line_wins ["@notice top", "@notice bottom"] simpleSig [] none (by decide)

/-- C8 counterexample: with `@notice one` above `@notice two` above the
declaration, the stored block reuses `@notice two` (the line nearest the
declaration), not `@notice one` (the first in top-to-bottom source order),
contradicting the claim. -/
theorem c8_counterexample :
    dictGet (getDocumentation
        [(some "@notice one", CodeElem.emptyLine),
          (some "@notice two", CodeElem.emptyLine),
          (none, CodeElem.func simpleSig [])]) "f" = some ["@notice two"] ∧
      (["@notice two"] : List String) ≠ ["@notice one"] :=
  ⟨rfl, by decide⟩

/-- C9 (code bug): with an eligible declaration as the block's FIRST entry,
the removal pass evaluates `top_level_elements[i - 1]` at `i = 0`; Python's
negative indexing wraps to the END of the list, so the trailing
comment-carrying empty line of the block is deleted even though it does not
precede any eligible declaration.  The claimed behaviour (scan stops at the
block start, trailing entries left in place) matches `get_documentation`'s
guarded scan and is the evident intent. -/
theorem c9_negative_index_removal :
    removeDocumentation
        [(none, CodeElem.func simpleSig []), (none, CodeElem.other 0),
          (some "trailing comment", CodeElem.emptyLine)] =
      ([(none, CodeElem.func simpleSig []), (none, CodeElem.other 0)], true) ∧
    pipeline
        [(none, CodeElem.func simpleSig []), (none, CodeElem.other 0),
          (some "trailing comment", CodeElem.emptyLine)] =
      ([(some "@notice", CodeElem.emptyLine), (none, CodeElem.func simpleSig []),
        (none, CodeElem.other 0)], true) :=
  ⟨rfl, rfl⟩

/-- C10 (confirmed): across all three passes — even when a pass aborts with
an IndexError or KeyError — every entry wrapping a real code element
(anything other than a comment-carrying empty line) is preserved, in its
original relative order, and insertion only adds comment-carrying empty-line
entries. -/
theorem c10_real_code_preserved (elements : List Entry) :
    ((pipeline elements).1).filter (fun e => !isCommentLine e) =
      elements.filter (fun e => !isCommentLine e) :=
  filter_pipeline (fun e => !isCommentLine e) (fun _ => rfl) elements
